import Mathlib

/-!
Verification of the outbound API-call governor of the diary application
(src/services/geminiService.ts and the Admission Queue it submits to).

The retry wrapper `withRetry` is embedded from src/services/geminiService.ts.
A task body is modelled by the outcome of each of its invocations
(`fn : Nat → Outcome α`): invocation number `i` either returns a value or
throws an error whose stringified description (JS `error.toString()`) is a
`String`.  The trace of one `withRetry` run records how many times the body
was invoked, the backoff sleeps performed (in order, in milliseconds), and
the final settlement; a thrown JS `undefined` is `Except.error none`.

The Admission Queue lives in src/services/apiQueue.ts, which is not among
the provided sources (only its caller geminiService.ts is); it is modelled
from the specification, as marked on each of those definitions.
-/

/-- Outcome of one invocation of a task body: a success value, or a thrown
error identified by its stringified description. -/
inductive Outcome (α : Type) where
  | ok (v : α)
  | err (e : String)
deriving DecidableEq

/-- JS `String.prototype.toLowerCase`, character by character (the trigger
substrings of the classifier are ASCII, for which per-character lowering
agrees with JS). -/
def toLowerCase (s : String) : String := ⟨s.data.map Char.toLower⟩

/-- JS `String.prototype.includes`: contiguous-substring containment. -/
def includes (s sub : String) : Bool :=
  s.data.tails.any fun t => sub.data.isPrefixOf t

/-- Embedded from src/services/geminiService.ts, lines 31-33: an error is
retriable when its lowercased stringified description contains one of the
substrings "503", "unavailable", "overloaded". -/
def isTransient (errText : String) : Bool :=
  let errorMessage := toLowerCase errText
  includes errorMessage "503" || includes errorMessage "unavailable"
    || includes errorMessage "overloaded"

/-- Written from the specification, for comparison with `isTransient`: a
case-insensitive substring match lowercases both the text and the pattern. -/
def containsCaseInsensitive (s pat : String) : Bool :=
  includes (toLowerCase s) (toLowerCase pat)

/-- Observable trace of one `withRetry` run: number of invocations of the
body, the backoff sleeps in order (milliseconds), and the settlement.
`Except.error none` is a thrown JS `undefined`; `Except.error (some e)` is a
thrown error with stringified description `e`. -/
structure RetryTrace (α : Type) where
  invocations : Nat
  sleeps : List Nat
  result : Except (Option String) α

/-- Loop of `withRetry` (src/services/geminiService.ts lines 26-44), by
recursion on the number of remaining iterations.  `i` is the current
attempt index, `lastError` the value of the `lastError` variable.  The
guard `remaining = 0` is the source's `i < retries - 1` test negated:
`remaining` further iterations follow the current one. -/
def withRetryAux {α : Type} (fn : Nat → Outcome α) (delay : Nat) :
    Nat → Nat → Option String → RetryTrace α
  | 0, _, lastError => ⟨0, [], Except.error lastError⟩
  | remaining + 1, i, _ =>
    match fn i with
    | Outcome.ok v => ⟨1, [], Except.ok v⟩
    | Outcome.err e =>
      if isTransient e then
        let rest := withRetryAux fn delay remaining (i + 1) (some e)
        if remaining = 0 then
          ⟨rest.invocations + 1, rest.sleeps, rest.result⟩
        else
          ⟨rest.invocations + 1, delay * 2 ^ i :: rest.sleeps, rest.result⟩
      else ⟨1, [], Except.error (some e)⟩

/-- Default of the `retries` parameter of `withRetry` in the source. -/
def defaultRetries : Int := 5

/-- Default of the `delay` parameter of `withRetry` in the source. -/
def defaultDelay : Nat := 1000

/-- Embedded from src/services/geminiService.ts lines 24-48.  `retries` is
an `Int` because a JS caller may pass any number; the `for` loop `i = 0;
i < retries` runs `max retries 0` iterations, which is `Int.toNat`. -/
def withRetry {α : Type} (fn : Nat → Outcome α) (retries : Int) (delay : Nat) :
    RetryTrace α :=
  withRetryAux fn delay retries.toNat 0 none

/-- Modelled from the spec: `submit` of the Admission Queue
(src/services/apiQueue.ts, imported by geminiService.ts but not among the
provided sources).  At this level only the routing matters: `enqueue`
records that a task was handed to the queue's sole entry point. -/
structure Enqueued (α : Type) where
  task : RetryTrace α

/-- Modelled from the spec: the sole entry point of the Admission Queue. -/
def enqueue {α : Type} (task : RetryTrace α) : Enqueued α :=
  ⟨task⟩

/-- Diary entry record, from the application's `DiaryEntry` type (fields as
used in App.tsx and geminiService.ts). -/
structure DiaryEntry where
  id : String
  date : String
  originalPhotoUrl : String
  transcription : String
  generatedText : String
  generatedImageUrl : String
  placeName : Option String

/-- Embedded from src/services/geminiService.ts lines 51-81: the exported
operation is `enqueue(() => withRetry(body))` with the default retry
parameters; `body` is the opaque network interaction, modelled by the
outcome of each of its invocations, producing the (name, details) list. -/
def searchPlaces (query : String) (body : Nat → Outcome (List (String × String))) :
    Enqueued (List (String × String)) :=
  enqueue (withRetry body defaultRetries defaultDelay)

/-- Embedded from src/services/geminiService.ts lines 84-100. -/
def generateDiaryEntry (transcription : String) (placeName : Option String)
    (body : Nat → Outcome String) : Enqueued String :=
  enqueue (withRetry body defaultRetries defaultDelay)

/-- Embedded from src/services/geminiService.ts lines 103-114. -/
def createImagePrompt (transcription : String) (body : Nat → Outcome String) :
    Enqueued String :=
  enqueue (withRetry body defaultRetries defaultDelay)

/-- Embedded from src/services/geminiService.ts lines 116-133. -/
def generateSketch (prompt : String) (body : Nat → Outcome String) :
    Enqueued String :=
  enqueue (withRetry body defaultRetries defaultDelay)

/-- Embedded from src/services/geminiService.ts lines 135-164; the body
produces the parsed (summary, score) pair. -/
def summarizeDay (entries : List DiaryEntry) (body : Nat → Outcome (String × Int)) :
    Enqueued (String × Int) :=
  enqueue (withRetry body defaultRetries defaultDelay)

/-- Modelled from the spec: observable state of the Admission Queue
(src/services/apiQueue.ts is not among the provided sources).  `pending`
holds the ids of submitted but unadmitted tasks, oldest first.  The history
fields record, in order: every submission (`submitted`), every admission
(`admitted`), every id that was ever appended to the pending list
(`queuedLog`), and every id admitted by popping the pending list
(`dequeued`). -/
structure QueueState where
  maxConcurrent : Nat
  activeCount : Nat
  pending : List Nat
  submitted : List Nat
  admitted : List Nat
  queuedLog : List Nat
  dequeued : List Nat
deriving DecidableEq

/-- Modelled from the spec: a freshly constructed queue with no pending or
active task. -/
def initState (maxConcurrent : Nat) : QueueState :=
  ⟨maxConcurrent, 0, [], [], [], [], []⟩

/-- Events observed by the Admission Queue: a submission of task `id`, or
the completion of some active task, carrying whether it succeeded. -/
inductive QEvent where
  | submit (id : Nat)
  | complete (success : Bool)
deriving DecidableEq

/-- Modelled from the spec, section 4.1: on submit, admit immediately
(increment the active counter) when a slot is free, else append to the
pending list; on completion of any task — success or failure alike —
decrement the counter, then, when the pending list is non-empty, pop its
head (the oldest pending request) and admit it. -/
def qstep (s : QueueState) : QEvent → QueueState
  | QEvent.submit id =>
    if s.activeCount < s.maxConcurrent then
      { s with activeCount := s.activeCount + 1,
               submitted := s.submitted ++ [id],
               admitted := s.admitted ++ [id] }
    else
      { s with pending := s.pending ++ [id],
               submitted := s.submitted ++ [id],
               queuedLog := s.queuedLog ++ [id] }
  | QEvent.complete _ =>
    match s.pending with
    | [] => { s with activeCount := s.activeCount - 1 }
    | head :: tail =>
      { s with activeCount := s.activeCount - 1 + 1,
               pending := tail,
               admitted := s.admitted ++ [head],
               dequeued := s.dequeued ++ [head] }

/-- Run of the queue on a list of events. -/
def runQ (s : QueueState) (tr : List QEvent) : QueueState :=
  tr.foldl qstep s

/-- Validity of an event in a state: completions can only come from tasks
that are actually active. -/
def validEvent (s : QueueState) : QEvent → Prop
  | QEvent.submit _ => True
  | QEvent.complete _ => 0 < s.activeCount

/-- States the queue can reach from a fresh construction through valid
events. -/
inductive Reachable (maxConcurrent : Nat) : QueueState → Prop
  | init : Reachable maxConcurrent (initState maxConcurrent)
  | step {s : QueueState} {e : QEvent} : Reachable maxConcurrent s →
      validEvent s e → Reachable maxConcurrent (qstep s e)

/-- Erasure of the success flag of completion events: two traces with the
same erasure differ only in which tasks failed. -/
def scrubEvent : QEvent → QEvent
  | QEvent.submit id => QEvent.submit id
  | QEvent.complete _ => QEvent.complete true

def lastErrAfter (es : Nat → String) (s : Nat) (last : Option String) : Nat → Option String
  | 0 => last
  | cnt + 1 => some (es (s + cnt))

theorem lastErrAfter_shift (es : Nat → String) (s : Nat) (last : Option String) :
    ∀ cnt : Nat, lastErrAfter es (s + 1) (some (es s)) cnt = lastErrAfter es s last (cnt + 1)
  | 0 => by simp [lastErrAfter]
  | cnt + 1 => by
    simp only [lastErrAfter]
    rw [show s + 1 + cnt = s + (cnt + 1) by omega]

theorem range_map_pow_shift (delay s cnt : Nat) :
    (List.range (cnt + 1)).map (fun k => delay * 2 ^ (s + k)) =
      delay * 2 ^ s :: (List.range cnt).map (fun k => delay * 2 ^ (s + 1 + k)) := by
  rw [List.range_succ_eq_map]
  simp only [List.map_cons, List.map_map, Nat.add_zero]
  congr 1
  apply List.map_congr_left
  intro k _
  simp only [Function.comp_apply]
  rw [show s + (k + 1) = s + 1 + k by omega]

theorem withRetryAux_transient_prefix {α : Type} (fn : Nat → Outcome α) (delay : Nat)
    (es : Nat → String) :
    ∀ (cnt s remaining : Nat) (last : Option String),
      cnt < remaining →
      (∀ j, j < cnt → fn (s + j) = Outcome.err (es (s + j)) ∧ isTransient (es (s + j)) = true) →
      withRetryAux fn delay remaining s last =
        ⟨(withRetryAux fn delay (remaining - cnt) (s + cnt) (lastErrAfter es s last cnt)).invocations + cnt,
         (List.range cnt).map (fun k => delay * 2 ^ (s + k)) ++
           (withRetryAux fn delay (remaining - cnt) (s + cnt) (lastErrAfter es s last cnt)).sleeps,
         (withRetryAux fn delay (remaining - cnt) (s + cnt) (lastErrAfter es s last cnt)).result⟩
  | 0, s, remaining, last, _, _ => by
    simp [lastErrAfter]
  | cnt + 1, s, remaining, last, hlt, hps => by
    obtain ⟨r, rfl⟩ : ∃ r, remaining = r + 1 := ⟨remaining - 1, by omega⟩
    have hcr : cnt < r := by omega
    have h0 := hps 0 (by omega)
    rw [Nat.add_zero] at h0
    have hstep : withRetryAux fn delay (r + 1) s last =
        ⟨(withRetryAux fn delay r (s + 1) (some (es s))).invocations + 1,
         delay * 2 ^ s :: (withRetryAux fn delay r (s + 1) (some (es s))).sleeps,
         (withRetryAux fn delay r (s + 1) (some (es s))).result⟩ := by
      have hr0 : r ≠ 0 := by omega
      simp only [withRetryAux, h0.1, h0.2, if_true, hr0, if_false, ite_false]
    rw [hstep]
    have ih := withRetryAux_transient_prefix fn delay es cnt (s + 1) r (some (es s)) hcr
      (fun j hj => by
        have := hps (j + 1) (by omega)
        constructor
        · rw [show s + 1 + j = s + (j + 1) by omega]
          exact this.1
        · rw [show s + 1 + j = s + (j + 1) by omega]
          exact this.2)
    rw [ih]
    rw [lastErrAfter_shift es s last cnt]
    have harith1 : r - cnt = r + 1 - (cnt + 1) := by omega
    have harith2 : s + 1 + cnt = s + (cnt + 1) := by omega
    rw [harith1, harith2, range_map_pow_shift]
    simp [Nat.add_assoc]

theorem withRetryAux_allTransient {α : Type} (fn : Nat → Outcome α) (delay : Nat)
    (es : Nat → String) (m : Nat)
    (hfn : ∀ j, fn j = Outcome.err (es j)) (htr : ∀ j, isTransient (es j) = true) :
    withRetryAux fn delay (m + 1) 0 none =
      ⟨m + 1, (List.range m).map (fun k => delay * 2 ^ k), Except.error (some (es m))⟩ := by
  have h := withRetryAux_transient_prefix fn delay es m 0 (m + 1) none (by omega)
    (fun j _ => ⟨hfn (0 + j), htr (0 + j)⟩)
  rw [h]
  have haux : withRetryAux fn delay (m + 1 - m) (0 + m) (lastErrAfter es 0 none m) =
      ⟨1, [], Except.error (some (es m))⟩ := by
    rw [show m + 1 - m = 1 by omega, Nat.zero_add]
    simp [withRetryAux, hfn m, htr m]
  rw [haux]
  simp [Nat.add_comm]

theorem withRetry_transient_streak {α : Type} (fn : Nat → Outcome α) (delay : Nat) (es : Nat → String)
    (retries : Int) (i : Nat) (hi : i < retries.toNat)
    (hps : ∀ j, j < i → fn j = Outcome.err (es j) ∧ isTransient (es j) = true) :
    withRetry fn retries delay =
      ⟨(withRetryAux fn delay (retries.toNat - i) i (lastErrAfter es 0 none i)).invocations + i,
       (List.range i).map (fun k => delay * 2 ^ k) ++
         (withRetryAux fn delay (retries.toNat - i) i (lastErrAfter es 0 none i)).sleeps,
       (withRetryAux fn delay (retries.toNat - i) i (lastErrAfter es 0 none i)).result⟩ := by
  unfold withRetry
  have h := withRetryAux_transient_prefix fn delay es i 0 retries.toNat none hi
    (fun j hj => by simpa using hps j hj)
  simpa using h

/-- C1: a task body failing with a transient error on every invocation is
invoked exactly `maxAttempts` times under `withRetry` (for any
`maxAttempts` at least 1), and the final settlement throws exactly the
error observed on the last attempt — not a synthesized exhaustion error. -/
theorem withRetry_exhausts_all_attempts {α : Type} (fn : Nat → Outcome α)
    (es : Nat → String) (retries : Int) (delay : Nat) (hr : 1 ≤ retries)
    (hfn : ∀ j, fn j = Outcome.err (es j)) (htr : ∀ j, isTransient (es j) = true) :
    (withRetry fn retries delay).invocations = retries.toNat ∧
    (withRetry fn retries delay).result = Except.error (some (es (retries.toNat - 1))) := by
  obtain ⟨m, hm⟩ : ∃ m, retries.toNat = m + 1 := ⟨retries.toNat - 1, by omega⟩
  unfold withRetry
  rw [hm, withRetryAux_allTransient fn delay es m hfn htr]
  simp

theorem withRetry_exhausts_all_attempts_witness :
    (withRetry (fun _ => Outcome.err (α := Nat) "503 server error") 3 1000).invocations = 3 ∧
    (withRetry (fun _ => Outcome.err (α := Nat) "503 server error") 3 1000).result =
      Except.error (some "503 server error") :=
  withRetry_exhausts_all_attempts (fun _ => Outcome.err "503 server error")
    (fun _ => "503 server error") 3 1000 (by decide) (fun _ => rfl) (fun _ => rfl)

/-- C5: the backoff schedule.  First part: whenever attempts 0..i all fail
transiently and attempt i is not the last one, the sleep recorded between
attempt i and attempt i+1 is exactly `delay * 2 ^ i` (no jitter).  Second
part: on an always-transiently-failing body there are exactly
`maxAttempts - 1` sleeps, `delay * 2 ^ k` for k = 0,...,maxAttempts-2 — in
particular no sleep follows the transient failure of the final attempt. -/
theorem withRetry_backoff_schedule {α : Type} (fn : Nat → Outcome α)
    (es : Nat → String) (retries : Int) (delay : Nat) :
    (∀ i : Nat, i + 1 < retries.toNat →
      (∀ j, j ≤ i → fn j = Outcome.err (es j) ∧ isTransient (es j) = true) →
      (withRetry fn retries delay).sleeps[i]? = some (delay * 2 ^ i)) ∧
    ((∀ j, fn j = Outcome.err (es j)) → (∀ j, isTransient (es j) = true) →
      (withRetry fn retries delay).sleeps =
        (List.range (retries.toNat - 1)).map (fun k => delay * 2 ^ k)) := by
  constructor
  · intro i hi hps
    rw [withRetry_transient_streak fn delay es retries (i + 1) hi
      (fun j hj => hps j (by omega))]
    have hlen : ((List.range (i + 1)).map (fun k => delay * 2 ^ k)).length = i + 1 := by
      simp
    rw [List.getElem?_append]
    simp [hlen]
  · intro hfn htr
    rcases Nat.eq_zero_or_pos retries.toNat with hz | hp
    · unfold withRetry
      rw [hz]
      simp [withRetryAux]
    · obtain ⟨m, hm⟩ : ∃ m, retries.toNat = m + 1 := ⟨retries.toNat - 1, by omega⟩
      unfold withRetry
      rw [hm, withRetryAux_allTransient fn delay es m hfn htr]
      simp

theorem withRetry_backoff_schedule_witness :
    (withRetry (fun _ => Outcome.err (α := Nat) "server unavailable") 4 1000).sleeps[2]? =
      some 4000 ∧
    (withRetry (fun _ => Outcome.err (α := Nat) "server unavailable") 4 1000).sleeps =
      [1000, 2000, 4000] :=
  ⟨(withRetry_backoff_schedule (fun _ => Outcome.err "server unavailable")
      (fun _ => "server unavailable") 4 1000).1 2 (by decide)
      (fun _ _ => ⟨rfl, rfl⟩),
   by
    rw [(withRetry_backoff_schedule (fun _ => Outcome.err "server unavailable")
      (fun _ => "server unavailable") 4 1000).2 (fun _ => rfl) (fun _ => rfl)]
    rfl⟩

/-- C4: when attempts before index i fail transiently and attempt i fails
with a non-transient error, `withRetry` rethrows that error object
unchanged at once: the body is invoked exactly i+1 times, no sleep follows
the non-transient failure (only the i earlier backoffs are recorded), and
the settlement is that very error.  At i = 0 the body runs exactly once. -/
theorem withRetry_nonTransient_fast_path {α : Type} (fn : Nat → Outcome α)
    (es : Nat → String) (e : String) (retries : Int) (delay : Nat) (i : Nat)
    (hi : i < retries.toNat)
    (hps : ∀ j, j < i → fn j = Outcome.err (es j) ∧ isTransient (es j) = true)
    (hf : fn i = Outcome.err e) (hnt : isTransient e = false) :
    withRetry fn retries delay =
      ⟨i + 1, (List.range i).map (fun k => delay * 2 ^ k), Except.error (some e)⟩ := by
  rw [withRetry_transient_streak fn delay es retries i hi hps]
  obtain ⟨m, hm⟩ : ∃ m, retries.toNat - i = m + 1 := ⟨retries.toNat - i - 1, by omega⟩
  have haux : withRetryAux fn delay (retries.toNat - i) i (lastErrAfter es 0 none i) =
      ⟨1, [], Except.error (some e)⟩ := by
    rw [hm]
    simp [withRetryAux, hf, hnt]
  rw [haux]
  simp [Nat.add_comm]

theorem withRetry_nonTransient_fast_path_witness :
    withRetry (fun _ => Outcome.err (α := Nat) "invalid api key") 5 1000 =
      ⟨1, [], Except.error (some "invalid api key")⟩ :=
  withRetry_nonTransient_fast_path (fun _ => Outcome.err "invalid api key")
    (fun _ => "") "invalid api key" 5 1000 0 (by decide)
    (fun j hj => absurd hj (Nat.not_lt_zero j)) rfl rfl

/-- C7: the source defaults are retries = 5 and delay = 1000 ms, and a body
that succeeds on attempt i (after transient failures before it) makes
`withRetry` settle with exactly that value, after exactly i+1 invocations
and only the i backoff sleeps that preceded attempt i — no further
invocation and no additional sleep. -/
theorem withRetry_success_immediate {α : Type} (fn : Nat → Outcome α)
    (es : Nat → String) (v : α) (retries : Int) (delay : Nat) (i : Nat)
    (hi : i < retries.toNat)
    (hps : ∀ j, j < i → fn j = Outcome.err (es j) ∧ isTransient (es j) = true)
    (hok : fn i = Outcome.ok v) :
    defaultRetries = 5 ∧ defaultDelay = 1000 ∧
    withRetry fn retries delay =
      ⟨i + 1, (List.range i).map (fun k => delay * 2 ^ k), Except.ok v⟩ := by
  refine ⟨rfl, rfl, ?_⟩
  rw [withRetry_transient_streak fn delay es retries i hi hps]
  obtain ⟨m, hm⟩ : ∃ m, retries.toNat - i = m + 1 := ⟨retries.toNat - i - 1, by omega⟩
  have haux : withRetryAux fn delay (retries.toNat - i) i (lastErrAfter es 0 none i) =
      ⟨1, [], Except.ok v⟩ := by
    rw [hm]
    simp [withRetryAux, hok]
  rw [haux]
  simp [Nat.add_comm]

theorem withRetry_success_immediate_witness :
    defaultRetries = 5 ∧ defaultDelay = 1000 ∧
    withRetry (fun j => if j < 2 then Outcome.err "503" else Outcome.ok 7) 5 1000 =
      ⟨3, [1000, 2000], Except.ok 7⟩ := by
  have h := withRetry_success_immediate
    (fun j => if j < 2 then Outcome.err "503" else Outcome.ok 7)
    (fun _ => "503") 7 5 1000 2 (by decide)
    (fun j hj => by interval_cases j <;> exact ⟨rfl, rfl⟩) rfl
  simpa using h

/-- C10: with a non-positive retries parameter the loop body never runs:
the task body is never invoked, no sleep happens, and the JS `undefined`
still held by the uninitialized `lastError` variable is thrown. -/
theorem withRetry_nonpositive_retries {α : Type} (fn : Nat → Outcome α)
    (retries : Int) (delay : Nat) (h : retries ≤ 0) :
    withRetry fn retries delay = ⟨0, [], Except.error none⟩ := by
  unfold withRetry
  rw [Int.toNat_of_nonpos h]
  rfl

theorem withRetry_nonpositive_retries_witness :
    withRetry (fun _ => Outcome.ok 1) (-2) 50 = ⟨0, [], Except.error none⟩ :=
  withRetry_nonpositive_retries (fun _ => Outcome.ok 1) (-2) 50 (by decide)

/-- C3: the source classifier marks an error transient exactly when its
stringified description contains, case-insensitively, one of the
substrings "503", "unavailable", "overloaded"; the classification reads
nothing but that rendered text. -/
theorem isTransient_text_based (s : String) :
    isTransient s = (containsCaseInsensitive s "503" ||
      containsCaseInsensitive s "unavailable" ||
      containsCaseInsensitive s "overloaded") := rfl

/-- C9: each of the five exported operations routes its body through the
governor's single entry point: it is `enqueue` applied to a
`withRetry`-wrapped task, with the default retry parameters 5 and 1000. -/
theorem exports_route_through_governor :
    (∀ (query : String) (body : Nat → Outcome (List (String × String))),
      searchPlaces query body = enqueue (withRetry body 5 1000)) ∧
    (∀ (transcription : String) (placeName : Option String) (body : Nat → Outcome String),
      generateDiaryEntry transcription placeName body = enqueue (withRetry body 5 1000)) ∧
    (∀ (transcription : String) (body : Nat → Outcome String),
      createImagePrompt transcription body = enqueue (withRetry body 5 1000)) ∧
    (∀ (prompt : String) (body : Nat → Outcome String),
      generateSketch prompt body = enqueue (withRetry body 5 1000)) ∧
    (∀ (entries : List DiaryEntry) (body : Nat → Outcome (String × Int)),
      summarizeDay entries body = enqueue (withRetry body 5 1000)) :=
  ⟨fun _ _ => rfl, fun _ _ _ => rfl, fun _ _ => rfl, fun _ _ => rfl, fun _ _ => rfl⟩

theorem reachable_invariants {maxConcurrent : Nat} {s : QueueState}
    (h : Reachable maxConcurrent s) :
    s.maxConcurrent = maxConcurrent ∧ s.activeCount ≤ maxConcurrent ∧
    s.submitted.length = s.admitted.length + s.pending.length ∧
    s.queuedLog = s.dequeued ++ s.pending := by
  induction h with
  | init => simp [initState]
  | @step s e hr hv ih =>
    obtain ⟨hm, ha, hl, hq⟩ := ih
    cases e with
    | submit id =>
      by_cases hc : s.activeCount < s.maxConcurrent
      · simp only [qstep, hc, if_true]
        refine ⟨hm, by omega, ?_, hq⟩
        simp [hl]
        omega
      · simp only [qstep, hc, if_false]
        refine ⟨hm, ha, ?_, ?_⟩
        · simp [hl]
          omega
        · rw [hq, List.append_assoc]
    | complete b =>
      simp only [validEvent] at hv
      cases hp : s.pending with
      | nil =>
        simp only [qstep, hp]
        rw [hp] at hl hq
        refine ⟨hm, by omega, by simpa using hl, by simpa using hq⟩
      | cons head tail =>
        simp only [qstep, hp]
        rw [hp] at hl hq
        refine ⟨hm, by omega, ?_, ?_⟩
        · simp at hl ⊢
          omega
        · rw [hq]
          simp

/-- C2: in every reachable state of the Admission Queue the active-slot
count lies between 0 and MaxConcurrent (it is a `Nat`, incremented on
admission and decremented on completion by `qstep`), and the pending list
is non-empty only while at least one submitted task is unadmitted. -/
theorem admission_queue_bounds {maxConcurrent : Nat} {s : QueueState}
    (h : Reachable maxConcurrent s) :
    s.activeCount ≤ s.maxConcurrent ∧
    (s.pending ≠ [] → s.admitted.length < s.submitted.length) := by
  obtain ⟨hm, ha, hl, _⟩ := reachable_invariants h
  refine ⟨by omega, fun hp => ?_⟩
  have hpos : 0 < s.pending.length := List.length_pos.mpr hp
  omega

theorem admission_queue_bounds_witness :
    (qstep (qstep (initState 1) (QEvent.submit 0)) (QEvent.submit 1)).activeCount ≤
      (qstep (qstep (initState 1) (QEvent.submit 0)) (QEvent.submit 1)).maxConcurrent ∧
    ((qstep (qstep (initState 1) (QEvent.submit 0)) (QEvent.submit 1)).pending ≠ [] →
      (qstep (qstep (initState 1) (QEvent.submit 0)) (QEvent.submit 1)).admitted.length <
        (qstep (qstep (initState 1) (QEvent.submit 0)) (QEvent.submit 1)).submitted.length) :=
  by
  exact admission_queue_bounds
    (Reachable.step (Reachable.step Reachable.init trivial) trivial)

/-- C6: FIFO admission.  In every reachable state the log of ids ever
queued equals the ids admitted from the queue followed by those still
pending — so dequeues take the head (the oldest), and among tasks that
were queued while the system was at capacity, the admission order agrees
with the submission order position by position. -/
theorem admission_queue_fifo {maxConcurrent : Nat} {s : QueueState}
    (h : Reachable maxConcurrent s) :
    s.queuedLog = s.dequeued ++ s.pending ∧
    ∀ i : Nat, i < s.dequeued.length → s.dequeued[i]? = s.queuedLog[i]? := by
  obtain ⟨_, _, _, hq⟩ := reachable_invariants h
  refine ⟨hq, fun i hi => ?_⟩
  rw [hq, List.getElem?_append]
  simp [hi]

theorem admission_queue_fifo_witness :
    (qstep (qstep (qstep (qstep (initState 1) (QEvent.submit 0)) (QEvent.submit 1))
        (QEvent.submit 2)) (QEvent.complete true)).queuedLog =
      (qstep (qstep (qstep (qstep (initState 1) (QEvent.submit 0)) (QEvent.submit 1))
        (QEvent.submit 2)) (QEvent.complete true)).dequeued ++
      (qstep (qstep (qstep (qstep (initState 1) (QEvent.submit 0)) (QEvent.submit 1))
        (QEvent.submit 2)) (QEvent.complete true)).pending ∧
    ∀ i : Nat, i < (qstep (qstep (qstep (qstep (initState 1) (QEvent.submit 0))
        (QEvent.submit 1)) (QEvent.submit 2)) (QEvent.complete true)).dequeued.length →
      (qstep (qstep (qstep (qstep (initState 1) (QEvent.submit 0)) (QEvent.submit 1))
        (QEvent.submit 2)) (QEvent.complete true)).dequeued[i]? =
      (qstep (qstep (qstep (qstep (initState 1) (QEvent.submit 0)) (QEvent.submit 1))
        (QEvent.submit 2)) (QEvent.complete true)).queuedLog[i]? := by
  exact admission_queue_fifo
    (Reachable.step (Reachable.step (Reachable.step (Reachable.step Reachable.init
      trivial) trivial) trivial) Nat.one_pos)

theorem qstep_scrub (s : QueueState) (e : QEvent) : qstep s (scrubEvent e) = qstep s e := by
  cases e <;> rfl

theorem runQ_scrub : ∀ (tr : List QEvent) (s : QueueState),
    runQ s (tr.map scrubEvent) = runQ s tr
  | [], _ => rfl
  | e :: tr, s => by
    show runQ (qstep s (scrubEvent e)) (tr.map scrubEvent) = runQ (qstep s e) tr
    rw [qstep_scrub]
    exact runQ_scrub tr (qstep s e)

/-- C8: independence from failure.  Two event traces that agree except on
whether completions were successes or failures drive the Admission Queue
through the same final state: the same admissions, in the same order, with
the same pending list and active count — a task's failure neither blocks
nor reorders nor cancels its siblings, each of which settles from its own
task alone. -/
theorem failure_independence (s : QueueState) (tr₁ tr₂ : List QEvent)
    (h : tr₁.map scrubEvent = tr₂.map scrubEvent) :
    runQ s tr₁ = runQ s tr₂ := by
  rw [← runQ_scrub tr₁ s, h, runQ_scrub tr₂ s]

theorem failure_independence_witness :
    runQ (initState 2) [QEvent.submit 0, QEvent.submit 1, QEvent.submit 2,
      QEvent.complete false] =
    runQ (initState 2) [QEvent.submit 0, QEvent.submit 1, QEvent.submit 2,
      QEvent.complete true] :=
  failure_independence (initState 2) _ _ rfl
